import Mathlib

/-!
Shallow embedding of the columnar bridge of `gluten`:
  * `ShuffleReader::read` (src/unnamed/part_001, ShuffleReader.cpp),
  * the Arrow-to-CH column conversion
    (src/cpp-ch/local-engine/Storages/ch_parquet/OptimizedArrowColumnToCHColumn.cpp).
Machine integers are modelled as `Int`/`Nat`; C++ exceptions become `Except`.
-/

namespace Gluten

/-! ## Shuffle reader (ShuffleReader.cpp) -/

/-- `DB::BlockInfo`: the identity tags carried by a shuffled block. -/
structure BlockInfo where
  is_overflows : Bool
  bucket_num : Int
deriving DecidableEq, Repr

/-- A deserialized row block: identity tags plus row/byte counts.
Row payloads are irrelevant to the reader, which only concatenates blocks. -/
structure Block where
  info : BlockInfo
  rows : Nat
  bytes : Nat
deriving DecidableEq, Repr

/-- The `while` condition of `ShuffleReader::read`:
`!buffer_rows || ((max_rows < 0 || buffer_rows < max_rows)
               && (max_bytes < 0 || buffer_bytes < max_bytes))`. -/
def shuffleLoopCond (maxRows maxBytes : Int) (bufRows bufBytes : Nat) : Bool :=
  bufRows == 0 ||
    ((decide (maxRows < 0) || decide ((bufRows : Int) < maxRows)) &&
     (decide (maxBytes < 0) || decide ((bufBytes : Int) < maxBytes)))

/-- `blocks[0].info.is_overflows != block.info.is_overflows
  || blocks[0].info.bucket_num != block.info.bucket_num`. -/
def infoDiffers (a b : BlockInfo) : Bool :=
  (a.is_overflows != b.is_overflows) || (a.bucket_num != b.bucket_num)

/-- The accumulation loop of `ShuffleReader::read`.  `stream` is what the
`NativeReader` collaborator will still produce (an exhausted list behaves as
the end-of-stream empty block).  Returns the accumulated blocks, the new
pending block and the rest of the stream. -/
def shuffleLoop (maxRows maxBytes : Int) :
    List Block → List Block → Nat → Nat → List Block × Option Block × List Block
  | stream, blocks, bufRows, bufBytes =>
    if shuffleLoopCond maxRows maxBytes bufRows bufBytes then
      match stream with
      | [] => (blocks, none, [])
      | b :: rest =>
        if b.rows == 0 then
          (blocks, none, rest)
        else
          match blocks with
          | [] => shuffleLoop maxRows maxBytes rest [b] (bufRows + b.rows) (bufBytes + b.bytes)
          | b0 :: tl =>
            if infoDiffers b0.info b.info then
              (b0 :: tl, some b, rest)
            else
              shuffleLoop maxRows maxBytes rest (b0 :: tl ++ [b])
                (bufRows + b.rows) (bufBytes + b.bytes)
    else
      (blocks, none, stream)

/-- The mutable state `ShuffleReader` keeps across `read()` calls. -/
structure ReaderState where
  max_shuffle_read_rows : Int
  max_shuffle_read_bytes : Int
  pending_block : Option Block
  stream : List Block
deriving Repr

/-- One call of `ShuffleReader::read`: seed the buffer from the pending block,
run the loop, concatenate.  The returned value is the list of accumulated
blocks (their concatenation is the emitted chunk; the chunk's info is the
first block's). -/
def ShuffleReader.read (st : ReaderState) : List Block × ReaderState :=
  let seed : List Block × Nat × Nat :=
    match st.pending_block with
    | some b => ([b], b.rows, b.bytes)
    | none => ([], 0, 0)
  let r := shuffleLoop st.max_shuffle_read_rows st.max_shuffle_read_bytes
      st.stream seed.1 seed.2.1 seed.2.2
  (r.1, { st with pending_block := r.2.1, stream := r.2.2 })

/-- Row count of the emitted chunk (`concatenateBlocks` preserves total rows). -/
def chunkRows (blocks : List Block) : Nat :=
  (blocks.map Block.rows).sum

/-- Drive the reader `n` times, collecting the emitted chunks. -/
def ShuffleReader.readN : Nat → ReaderState → List (List Block)
  | 0, _ => []
  | n + 1, st =>
    let r := ShuffleReader.read st
    r.1 :: ShuffleReader.readN n r.2

/-- All blocks of one emitted chunk agree on the identity tags. -/
def sameIdentity (blocks : List Block) : Prop :=
  ∀ b ∈ blocks, ∀ b' ∈ blocks, b.info = b'.info

/-! ## Arrow-to-CH conversion (OptimizedArrowColumnToCHColumn.cpp) -/

/-- The exceptions thrown by the conversion, by `ErrorCodes` constant. -/
inductive ConvError where
  /-- `VALUE_IS_OUT_OF_RANGE_OF_DATA_TYPE`: carries the offending value and
  the column name (the `ValueOutOfRange` kind of the spec). -/
  | valueOutOfRange (value : Int) (column : String)
  /-- `UNKNOWN_TYPE`: unsupported arrow type (the `UnsupportedType` kind). -/
  | unknownType (format : String) (typeName : String) (column : String)
  /-- `BAD_ARGUMENTS`: unsupported index type in LowCardinality
  (the `MalformedDictionary` kind). -/
  | badArguments (typeName : String)
  /-- `THERE_IS_NO_COLUMN` (the `MissingColumn` kind). -/
  | thereIsNoColumn (column : String)
  /-- `INCORRECT_NUMBER_OF_COLUMNS`: "Columns is empty"
  (the `EmptyInput` kind). -/
  | incorrectNumberOfColumns
  /-- `DUPLICATE_COLUMN`. -/
  | duplicateColumn (column : String)
  /-- `castColumn` failure re-thrown with source/destination types
  (the `TypeCastFailure` kind). -/
  | typeCastFailure (fromType toType column : String)
deriving DecidableEq, Repr

/-! ### Decimal width selection (`readColumnWithDecimalData`) -/

/-- The four decimal backing widths of `DataTypeDecimal`. -/
inductive DecimalWidth where
  | w32 | w64 | w128 | w256
deriving DecidableEq, Repr, Fintype

/-- Bit width of the backing integer. -/
def DecimalWidth.bits : DecimalWidth → Nat
  | .w32 => 32
  | .w64 => 64
  | .w128 => 128
  | .w256 => 256

/-- `DecimalUtils::max_precision<DecimalN>`: the maximum decimal precision
representable by each backing width. -/
def DecimalWidth.maxPrecision : DecimalWidth → Nat
  | .w32 => 9
  | .w64 => 18
  | .w128 => 38
  | .w256 => 76

/-- The width-selection chain of `readColumnWithDecimalData`:
`precision <= max_precision<Decimal32> ? Decimal32 : ... : Decimal256`. -/
def readColumnWithDecimalData (precision : Nat) : DecimalWidth :=
  if precision ≤ DecimalWidth.maxPrecision .w32 then .w32
  else if precision ≤ DecimalWidth.maxPrecision .w64 then .w64
  else if precision ≤ DecimalWidth.maxPrecision .w128 then .w128
  else .w256

/-! ### Date32 bound check (`readColumnWithDate32Data`) -/

/-- `DATE_LUT_MAX_EXTEND_DAY_NUM` (`DATE_LUT_SIZE - 16436`, ClickHouse
DateLUTImpl.h): the maximum day number a `Date32` may carry. -/
def DATE_LUT_MAX_EXTEND_DAY_NUM : Int := 114636

/-- The per-chunk scan of `readColumnWithDate32Data`: walk the copied values
and throw `VALUE_IS_OUT_OF_RANGE_OF_DATA_TYPE` at the first value strictly
above `DATE_LUT_MAX_EXTEND_DAY_NUM`. -/
def checkDate32Chunk (column_name : String) : List Int → Except ConvError Unit
  | [] => .ok ()
  | v :: rest =>
    if DATE_LUT_MAX_EXTEND_DAY_NUM < v then
      .error (.valueOutOfRange v column_name)
    else checkDate32Chunk column_name rest

/-- Chunk-by-chunk body of `readColumnWithDate32Data`: copy the chunk's raw
values, then scan them for out-of-range day numbers. -/
def readColumnWithDate32Go (column_name : String) :
    List (List Int) → List Int → Except ConvError (List Int)
  | [], acc => .ok acc
  | c :: cs, acc =>
    match checkDate32Chunk column_name c with
    | .error e => .error e
    | .ok _ => readColumnWithDate32Go column_name cs (acc ++ c)

/-- `readColumnWithDate32Data`: a `Date32` column is a raw copy of the
chunks' `Int32` day numbers, validated against the LUT maximum. -/
def readColumnWithDate32Data (chunks : List (List Int)) (column_name : String) :
    Except ConvError (List Int) :=
  readColumnWithDate32Go column_name chunks []

/-! ### LowCardinality index dispatch (`FOR_ARROW_INDEXES_TYPES`,
`readColumnWithIndexesData`) -/

/-- `arrow::Type` tags relevant to this conversion. -/
inductive ArrowTypeId where
  | uint8 | int8 | uint16 | int16 | uint32 | int32 | uint64 | int64
  | halfFloat | float | double | boolean | string | binary
  | date32 | date64 | timestamp | decimal128 | decimal256
  | map | list | struct | dictionary
deriving DecidableEq, Repr, Fintype

/-- `arrow::DataType::name()` for the tags above (used in error texts). -/
def ArrowTypeId.tagName : ArrowTypeId → String
  | .uint8 => "uint8"
  | .int8 => "int8"
  | .uint16 => "uint16"
  | .int16 => "int16"
  | .uint32 => "uint32"
  | .int32 => "int32"
  | .uint64 => "uint64"
  | .int64 => "int64"
  | .halfFloat => "halffloat"
  | .float => "float"
  | .double => "double"
  | .boolean => "bool"
  | .string => "utf8"
  | .binary => "binary"
  | .date32 => "date32"
  | .date64 => "date64"
  | .timestamp => "timestamp"
  | .decimal128 => "decimal128"
  | .decimal256 => "decimal256"
  | .map => "map"
  | .list => "list"
  | .struct => "struct"
  | .dictionary => "dictionary"

/-- The internal numeric column types reachable from the index dispatch. -/
inductive CHNumericType where
  | uint8 | uint16 | uint32 | uint64
deriving DecidableEq, Repr, Fintype

/-- Bit width of a `CHNumericType`. -/
def CHNumericType.bits : CHNumericType → Nat
  | .uint8 => 8
  | .uint16 => 16
  | .uint32 => 32
  | .uint64 => 64

/-- The `FOR_ARROW_INDEXES_TYPES` table: the restricted dispatch used by
`readColumnWithIndexesData`; any tag outside the table throws
`BAD_ARGUMENTS` naming the unsupported type. -/
def indexTypeDispatch : ArrowTypeId → Except ConvError CHNumericType
  | .uint8 => .ok .uint8
  | .int8 => .ok .uint8
  | .uint16 => .ok .uint16
  | .int16 => .ok .uint16
  | .uint32 => .ok .uint32
  | .int32 => .ok .uint32
  | .uint64 => .ok .uint64
  | .int64 => .ok .uint64
  | t => .error (.badArguments t.tagName)

/-- `readColumnWithIndexesData`: dispatch on the index array's type and bulk
copy the raw values (`readColumnWithNumericData`), which reinterprets each
value's bits in the chosen unsigned width. -/
def readColumnWithIndexesData (indexType : ArrowTypeId) (values : List Int) :
    Except ConvError (CHNumericType × List Int) :=
  match indexTypeDispatch indexType with
  | .error e => .error e
  | .ok t => .ok (t, values.map (fun v => v.emod ((2 : Int) ^ t.bits)))

/-! ### List/map offsets (`readOffsetsFromArrowListColumn`) -/

/-- One chunk of an arrow LIST (or MAP) column, reduced to what the offsets
walk touches: its `Int32` offsets array and the length of its `values()`
array. -/
structure ArrowListChunk where
  offsets : List Int
  numValues : Nat
deriving DecidableEq, Repr

/-- The validity invariants of an (unsliced) arrow list chunk: offsets start
at 0, are non-decreasing, and end at the values array's length. -/
def validListChunk (c : ArrowListChunk) : Prop :=
  c.offsets.head? = some 0 ∧ c.offsets.Chain' (· ≤ ·) ∧
  c.offsets.getLast? = some (c.numValues : Int)

/-- `readOffsetsFromArrowListColumn`: per chunk, read the running start
value from `offsets_data.back()` (the zero-initialized left padding of
`PaddedPODArray` makes it 0 while the array is empty) and append
`start + arrow_offsets.Value(i)` for `i = 1 .. length-1`. -/
def readOffsetsFromArrowListColumn (chunks : List ArrowListChunk) : List Int :=
  chunks.foldl
    (fun acc c => acc ++ (c.offsets.drop 1).map (fun o => acc.getLastD 0 + o))
    []

/-- Row count of the element column of a list/map conversion: the nested
column is converted from the concatenation of every chunk's `values()` array
(`getNestedArrowColumn`), and conversion conserves row count. -/
def elementColumnLength (chunks : List ArrowListChunk) : Int :=
  (chunks.map fun c => (c.numValues : Int)).sum

instance (c : ArrowListChunk) : Decidable (validListChunk c) :=
  decidable_of_iff
    (c.offsets.head? = some 0 ∧ c.offsets.Chain' (· ≤ ·) ∧
      c.offsets.getLast? = some (c.numValues : Int)) Iff.rfl

/-! ### Dictionary cache (`readColumnFromArrowColumn`, DICTIONARY case) -/

/-- One chunk of an arrow DICTIONARY column: its `dictionary()` payload
(dictionary values, modelled as strings) and its `indices()` values. -/
structure DictChunk where
  dictionary : List String
  indices : List Int
deriving DecidableEq, Repr

/-- A dictionary-encoded arrow column: the common type of the chunks' index
arrays plus the chunks themselves. -/
structure DictColumn where
  indexType : ArrowTypeId
  chunks : List DictChunk
deriving DecidableEq, Repr

/-- A materialized `ColumnUnique` dictionary payload.  `ident` models the
allocation (pointer) identity: each materialization through
`IColumn::mutate` + `uniqueInsertRangeFrom` yields a fresh allocation, and a
cache hit returns the very same one. -/
structure UniqueColumn where
  ident : Nat
  values : List String
deriving DecidableEq, Repr

/-- `uniqueInsertRangeFrom` over the whole concatenated dictionary:
insert-all-at-once uniquing. -/
def uniqueInsertAll (vals : List String) : List String :=
  vals.foldl (fun acc v => if v ∈ acc then acc else acc ++ [v]) []

/-- The session state the DICTIONARY case threads: the `dictionary_values`
cache plus the allocation counter supplying fresh identities. -/
structure DictState where
  nextIdent : Nat
  dictionary_values : List (String × UniqueColumn)
deriving DecidableEq, Repr

/-- A converted `ColumnLowCardinality`: shared dictionary plus the freshly
converted index column. -/
structure LowCardinalityColumn where
  dictionary : UniqueColumn
  indexType : CHNumericType
  indices : List Int
deriving DecidableEq, Repr

/-- The `arrow::Type::DICTIONARY` case of `readColumnFromArrowColumn`: load
the dictionary payload only if `dictionary_values[column_name]` is absent
(concatenate every chunk's dictionary, convert, unique it, cache it under
the column name); then, on every encounter, concatenate every chunk's index
array, convert it through `readColumnWithIndexesData`, and pair the cached
dictionary with the fresh indices. -/
def readDictionaryColumn (column_name : String) (col : DictColumn)
    (st : DictState) : Except ConvError (LowCardinalityColumn × DictState) :=
  let dv_st : UniqueColumn × DictState :=
    match st.dictionary_values.lookup column_name with
    | some dv => (dv, st)
    | none =>
      let dict_concat := (col.chunks.map DictChunk.dictionary).flatten
      let uniq : UniqueColumn := ⟨st.nextIdent, uniqueInsertAll dict_concat⟩
      (uniq, ⟨st.nextIdent + 1, (column_name, uniq) :: st.dictionary_values⟩)
  match readColumnWithIndexesData col.indexType
      ((col.chunks.map DictChunk.indices).flatten) with
  | .error e => .error e
  | .ok (t, idxs) => .ok (⟨dv_st.1, t, idxs⟩, dv_st.2)

/-! ### Conversion session (`arrowColumnsToCHChunk`, `arrowTableToCHChunk`,
`getMissingColumns`) -/

/-- An internal column reduced to what the session logic observes: its
resolved type name and its values. -/
structure CHColumn where
  type : String
  values : List Int
deriving DecidableEq, Repr

/-- `Nested::extractTableName`: the part of a dotted name before the first
nesting separator (the whole name when it has no separator). -/
def extractTableName (s : String) : String :=
  String.mk (s.toList.takeWhile (· ≠ '.'))

/-- An external (arrow) column as the session sees it: its row count
(`length()`), the column `readColumnFromArrowColumn` produces for it, and —
modelled from the spec: the Nested-Table Extractor
(`NestedColumnExtractHelper::extractColumn`, not among the sources) answers,
for a dotted leaf name, whether a leaf path exists in the converted column
group and what its value column is; `leaves` lists those leaf columns. -/
structure InputColumn where
  len : Nat
  converted : CHColumn
  leaves : List (String × CHColumn)
deriving DecidableEq, Repr

/-- A target header column: name, declared type, and the header's (normally
empty) sample column that `cloneResized` default-fills from. -/
structure HeaderColumn where
  name : String
  type : String
  sampleValues : List Int
deriving DecidableEq, Repr

/-- `IColumn::cloneResized(n)`: keep the first `n` values and pad with the
type's default value. -/
def cloneResized (c : CHColumn) (n : Nat) : CHColumn :=
  ⟨c.type, c.values.take n ++ List.replicate (n - c.values.length) 0⟩

/-- `castColumn(column, header_type)` wrapped by the catch that rethrows
with source/destination types and the column name: modelled as the identity
on an already-matching type and a cast failure otherwise. -/
def castColumn (c : CHColumn) (target : String) (column_name : String) :
    Except ConvError CHColumn :=
  if c.type = target then .ok c
  else .error (.typeCastFailure c.type target column_name)

/-- The per-target-column body of the loop in `arrowColumnsToCHChunk`:
exact name match first, then the nested-table route (enabled by
`import_nested`), then the missing-column policy: strict throws
`THERE_IS_NO_COLUMN`, lenient pushes
`header_column.column->cloneResized(num_rows)` (skipping the cast). -/
def resolveColumn (import_nested allow_missing_columns : Bool)
    (name_to_column_ptr : List (String × InputColumn)) (num_rows : Nat)
    (header_column : HeaderColumn) : Except ConvError CHColumn :=
  match name_to_column_ptr.lookup header_column.name with
  | some ic => castColumn ic.converted header_column.type header_column.name
  | none =>
    match (if import_nested then
        match name_to_column_ptr.lookup (extractTableName header_column.name) with
        | some g => g.leaves.lookup header_column.name
        | none => none
      else none : Option CHColumn) with
    | some c => castColumn c header_column.type header_column.name
    | none =>
      if !allow_missing_columns then
        .error (.thereIsNoColumn header_column.name)
      else
        .ok (cloneResized ⟨header_column.type, header_column.sampleValues⟩ num_rows)

/-- The sequential per-header-column loop of `arrowColumnsToCHChunk`; the
first failing column aborts the whole batch. -/
def convertColumns (import_nested allow_missing_columns : Bool)
    (name_to_column_ptr : List (String × InputColumn)) (num_rows : Nat) :
    List HeaderColumn → Except ConvError (List CHColumn)
  | [] => .ok []
  | hc :: rest =>
    match resolveColumn import_nested allow_missing_columns name_to_column_ptr
        num_rows hc with
    | .error e => .error e
    | .ok c =>
      match convertColumns import_nested allow_missing_columns name_to_column_ptr
          num_rows rest with
      | .error e => .error e
      | .ok cs => .ok (c :: cs)

/-- The produced internal row batch. -/
structure CHChunk where
  columns : List CHColumn
  num_rows : Nat
deriving DecidableEq, Repr

/-- `arrowColumnsToCHChunk`: throws `INCORRECT_NUMBER_OF_COLUMNS` ("Columns
is empty") on an empty column map, otherwise fixes `num_rows` from the first
column's length and resolves every header column in order. -/
def arrowColumnsToCHChunk (import_nested allow_missing_columns : Bool)
    (header : List HeaderColumn)
    (name_to_column_ptr : List (String × InputColumn)) :
    Except ConvError CHChunk :=
  match name_to_column_ptr with
  | [] => .error .incorrectNumberOfColumns
  | (_, c0) :: _ =>
    match convertColumns import_nested allow_missing_columns name_to_column_ptr
        c0.len header with
    | .error e => .error e
    | .ok cols => .ok ⟨cols, c0.len⟩

/-- `arrowTableToCHChunk`: builds the name-to-column map (a duplicated name
makes `GetColumnByName` fail and throws `DUPLICATE_COLUMN`), then calls
`arrowColumnsToCHChunk` only under the guard
`if (!name_to_column_ptr.empty())`: with zero columns the output chunk
`res` is returned untouched. -/
def arrowTableToCHChunk (import_nested allow_missing_columns : Bool)
    (header : List HeaderColumn) (table : List (String × InputColumn))
    (res : CHChunk) : Except ConvError CHChunk :=
  match table.find? (fun p => 1 < (table.map Prod.fst).count p.1) with
  | some p => .error (.duplicateColumn p.1)
  | none =>
    if table.isEmpty then .ok res
    else arrowColumnsToCHChunk import_nested allow_missing_columns header table

/-- A field of the external schema as `getMissingColumns` sees it: its name
(a column of the derived header `arrowSchemaToCHHeader` produces) and —
modelled from the spec, as for `InputColumn.leaves` — the dotted leaf paths
the Nested-Table Extractor can extract from the derived column. -/
structure SchemaField where
  name : String
  leaves : List String
deriving DecidableEq, Repr

/-- Does the exact-or-nested resolution of `arrowColumnsToCHChunk` find the
header column among the external columns? -/
def inputMatches (import_nested : Bool) (inputs : List (String × InputColumn))
    (hc : HeaderColumn) : Bool :=
  (inputs.lookup hc.name).isSome ||
    (import_nested &&
      match inputs.lookup (extractTableName hc.name) with
      | some g => (g.leaves.lookup hc.name).isSome
      | none => false)

/-- Does the dry-run resolution of `getMissingColumns` find the header
column in the schema-derived header? -/
def schemaMatches (import_nested : Bool) (schema : List SchemaField)
    (hc : HeaderColumn) : Bool :=
  (schema.map SchemaField.name).contains hc.name ||
    (import_nested &&
      match schema.find? (fun f => f.name == extractTableName hc.name) with
      | some f => f.leaves.contains hc.name
      | none => false)

/-- The loop of `getMissingColumns`, with `i` the position of the current
header column: a column found by neither route either throws (strict) or is
appended to `missing_columns` (lenient). -/
def getMissingColumnsGo (import_nested allow_missing_columns : Bool)
    (schema : List SchemaField) : Nat → List HeaderColumn → Except ConvError (List Nat)
  | _, [] => .ok []
  | i, hc :: rest =>
    if (schema.map SchemaField.name).contains hc.name then
      getMissingColumnsGo import_nested allow_missing_columns schema (i + 1) rest
    else
      if (import_nested &&
          match schema.find? (fun f => f.name == extractTableName hc.name) with
          | some f => f.leaves.contains hc.name
          | none => false : Bool) then
        getMissingColumnsGo import_nested allow_missing_columns schema (i + 1) rest
      else if !allow_missing_columns then
        .error (.thereIsNoColumn hc.name)
      else
        match getMissingColumnsGo import_nested allow_missing_columns schema
            (i + 1) rest with
        | .error e => .error e
        | .ok l => .ok (i :: l)

/-- `OptimizedArrowColumnToCHColumn::getMissingColumns`: the read-only query
over a schema-derived header. -/
def getMissingColumns (import_nested allow_missing_columns : Bool)
    (header : List HeaderColumn) (schema : List SchemaField) :
    Except ConvError (List Nat) :=
  getMissingColumnsGo import_nested allow_missing_columns schema 0 header

/-- Spec-side description of the lenient result of `getMissingColumns`: the
indices of the header columns unmatched by either route, in header order. -/
def missingIndicesSpec (import_nested : Bool) (schema : List SchemaField) :
    Nat → List HeaderColumn → List Nat
  | _, [] => []
  | i, hc :: rest =>
    if schemaMatches import_nested schema hc then
      missingIndicesSpec import_nested schema (i + 1) rest
    else
      i :: missingIndicesSpec import_nested schema (i + 1) rest

/-- The first header column unmatched by either dry-run route. -/
def firstUnmatched (import_nested : Bool) (schema : List SchemaField)
    (header : List HeaderColumn) : Option HeaderColumn :=
  header.find? (fun hc => !(schemaMatches import_nested schema hc))

theorem infoDiffers_eq_false_iff (a b : BlockInfo) :
    infoDiffers a b = false ↔ a = b := by
  cases a; cases b
  simp [infoDiffers, BlockInfo.mk.injEq, not_or]

theorem sameIdentity_append_last {blocks : List Block} {b0 b : Block} {tl : List Block}
    (hblocks : blocks = b0 :: tl) (h : sameIdentity blocks) (hb : b0.info = b.info) :
    sameIdentity (blocks ++ [b]) := by
  subst hblocks
  intro x hx y hy
  have hb0 : b0 ∈ b0 :: tl := List.mem_cons_self b0 tl
  rcases List.mem_append.mp hx with hx' | hx' <;>
    rcases List.mem_append.mp hy with hy' | hy'
  · exact h x hx' y hy'
  · have : y = b := by simpa using hy'
    subst this
    exact (h x hx' b0 hb0).trans hb
  · have : x = b := by simpa using hx'
    subst this
    exact (hb.symm.trans (h b0 hb0 y hy'))
  · have hx'' : x = b := by simpa using hx'
    have hy'' : y = b := by simpa using hy'
    rw [hx'', hy'']

theorem shuffleLoop_sameIdentity (maxRows maxBytes : Int) :
    ∀ (stream blocks : List Block) (bufRows bufBytes : Nat),
      sameIdentity blocks →
      sameIdentity (shuffleLoop maxRows maxBytes stream blocks bufRows bufBytes).1 := by
  intro stream
  induction stream with
  | nil =>
    intro blocks bufRows bufBytes h
    rw [shuffleLoop.eq_def]
    by_cases hc : shuffleLoopCond maxRows maxBytes bufRows bufBytes <;> simp [hc, h]
  | cons b rest ih =>
    intro blocks bufRows bufBytes h
    rw [shuffleLoop.eq_def]
    by_cases hc : shuffleLoopCond maxRows maxBytes bufRows bufBytes
    · simp only [hc, if_true]
      by_cases hz : (b.rows == 0) = true
      · simp [hz, h]
      · simp only [hz, Bool.false_eq_true, if_false]
        match blocks, h with
        | [], _ =>
          apply ih
          intro x hx y hy
          have hx' : x = b := by simpa using hx
          have hy' : y = b := by simpa using hy
          rw [hx', hy']
        | b0 :: tl, h =>
          by_cases hm : infoDiffers b0.info b.info = true
          · simp only [hm, if_true]
            exact h
          · simp only [hm, Bool.false_eq_true, if_false]
            apply ih
            have hb : b0.info = b.info :=
              (infoDiffers_eq_false_iff _ _).mp (Bool.not_eq_true _ ▸ hm)
            exact sameIdentity_append_last rfl h hb
    · simp [hc, h]

/-- With both thresholds disabled (negative sentinels) and a stream of
non-empty blocks all carrying the accumulated head's identity, the loop
consumes the whole stream: a disabled threshold never stops it. -/
theorem shuffleLoop_disabled_consumes_all
    (maxRows maxBytes : Int) (hr : maxRows < 0) (hb : maxBytes < 0) :
    ∀ (stream : List Block) (b0 : Block) (tl : List Block) (bufRows bufBytes : Nat),
      (∀ b ∈ stream, b.rows ≠ 0 ∧ b.info = b0.info) →
      shuffleLoop maxRows maxBytes stream (b0 :: tl) bufRows bufBytes
        = (b0 :: (tl ++ stream), none, []) := by
  intro stream
  induction stream with
  | nil =>
    intro b0 tl bufRows bufBytes _
    rw [shuffleLoop.eq_def]
    simp [shuffleLoopCond, hr, hb]
  | cons b rest ih =>
    intro b0 tl bufRows bufBytes hstream
    have hbr : b.rows ≠ 0 := (hstream b (List.mem_cons_self b rest)).1
    have hbi : b.info = b0.info := (hstream b (List.mem_cons_self b rest)).2
    rw [shuffleLoop.eq_def]
    have hcond : shuffleLoopCond maxRows maxBytes bufRows bufBytes = true := by
      simp [shuffleLoopCond, hr, hb]
    have hdiff : infoDiffers b0.info b.info = false :=
      (infoDiffers_eq_false_iff _ _).mpr hbi.symm
    simp only [hcond, if_true, beq_iff_eq, hbr, if_false, hdiff,
      Bool.false_eq_true, List.cons_append]
    rw [ih b0 (tl ++ [b]) _ _ (fun x hx => hstream x (List.mem_cons_of_mem b hx))]
    simp

end Gluten

namespace Gluten

/-- C1: every chunk emitted by `ShuffleReader::read` contains blocks of one
single `(is_overflows, bucket_num)` identity, and on the 3-block input
`[(bucket 0, 5 rows), (bucket 0, 5 rows), (bucket 1, 5 rows)]` with
`max_rows = 100` successive reads yield exactly the chunks of sizes 10, 5
and then the empty chunk. -/
theorem shuffleRead_boundary_preservation :
    (∀ st : ReaderState, sameIdentity (ShuffleReader.read st).1) ∧
    (ShuffleReader.readN 3
        { max_shuffle_read_rows := 100, max_shuffle_read_bytes := -1,
          pending_block := none,
          stream := [⟨⟨false, 0⟩, 5, 100⟩, ⟨⟨false, 0⟩, 5, 100⟩,
                     ⟨⟨false, 1⟩, 5, 100⟩] }).map chunkRows = [10, 5, 0] := by
  constructor
  · intro st
    have hseed :
        sameIdentity (match st.pending_block with
          | some b => ([b], b.rows, b.bytes)
          | none => (([] : List Block), 0, 0)).1 := by
      cases st.pending_block with
      | none => intro x hx; simp at hx
      | some b =>
        intro x hx y hy
        have hx' : x = b := by simpa using hx
        have hy' : y = b := by simpa using hy
        rw [hx', hy']
    exact shuffleLoop_sameIdentity _ _ _ _ _ _ hseed
  · decide

/-- C4: with `max_rows = 8` and same-identity 5-row blocks the reader stops
after accumulating exactly the first two whole blocks; the loop condition is
true whenever nothing is accumulated yet, is true whenever both thresholds
carry the negative disable sentinel, and with both thresholds disabled the
loop runs until end-of-stream (given no identity mismatch and no empty
block): a disabled threshold never stops accumulation on its own. -/
theorem shuffleRead_threshold_stop :
    ((ShuffleReader.read
        { max_shuffle_read_rows := 8, max_shuffle_read_bytes := -1,
          pending_block := none,
          stream := [⟨⟨false, 0⟩, 5, 100⟩, ⟨⟨false, 0⟩, 5, 100⟩,
                     ⟨⟨false, 0⟩, 5, 100⟩, ⟨⟨false, 0⟩, 5, 100⟩] }).1
      = [⟨⟨false, 0⟩, 5, 100⟩, ⟨⟨false, 0⟩, 5, 100⟩]) ∧
    (∀ (maxRows maxBytes : Int) (bufBytes : Nat),
      shuffleLoopCond maxRows maxBytes 0 bufBytes = true) ∧
    (∀ (maxRows maxBytes : Int), maxRows < 0 → maxBytes < 0 →
      ∀ (bufRows bufBytes : Nat),
        shuffleLoopCond maxRows maxBytes bufRows bufBytes = true) ∧
    (∀ (maxRows maxBytes : Int), maxRows < 0 → maxBytes < 0 →
      ∀ (stream : List Block) (b0 : Block) (tl : List Block) (bufRows bufBytes : Nat),
        (∀ b ∈ stream, b.rows ≠ 0 ∧ b.info = b0.info) →
        shuffleLoop maxRows maxBytes stream (b0 :: tl) bufRows bufBytes
          = (b0 :: (tl ++ stream), none, [])) := by
  refine ⟨by decide, ?_, ?_, ?_⟩
  · intro maxRows maxBytes bufBytes
    simp [shuffleLoopCond]
  · intro maxRows maxBytes hr hb bufRows bufBytes
    simp [shuffleLoopCond, hr, hb]
  · intro maxRows maxBytes hr hb
    exact shuffleLoop_disabled_consumes_all maxRows maxBytes hr hb

/-- Closed instantiation of `shuffleRead_threshold_stop`: both sentinel
thresholds disabled, one-block stream of matching identity. -/
theorem shuffleRead_threshold_stop_witness :
    shuffleLoopCond (-1) (-1) 0 7 = true ∧
    shuffleLoopCond (-1) (-1) 9 9 = true ∧
    shuffleLoop (-1) (-1) [⟨⟨false, 2⟩, 5, 100⟩] [⟨⟨false, 2⟩, 5, 100⟩] 5 100
      = ([⟨⟨false, 2⟩, 5, 100⟩, ⟨⟨false, 2⟩, 5, 100⟩], none, []) := by
  refine ⟨?_, ?_, ?_⟩
  · exact shuffleRead_threshold_stop.2.1 (-1) (-1) 7
  · exact shuffleRead_threshold_stop.2.2.1 (-1) (-1) (by decide) (by decide) 9 9
  · exact shuffleRead_threshold_stop.2.2.2 (-1) (-1) (by decide) (by decide)
      [⟨⟨false, 2⟩, 5, 100⟩] ⟨⟨false, 2⟩, 5, 100⟩ [] 5 100
      (by intro b hb; simp at hb; rw [hb]; exact ⟨by decide, rfl⟩)

/-- Closed instantiation of `shuffleRead_boundary_preservation` at a
one-element pending state. -/
theorem shuffleRead_boundary_preservation_witness :
    sameIdentity (ShuffleReader.read
      { max_shuffle_read_rows := 100, max_shuffle_read_bytes := -1,
        pending_block := some ⟨⟨false, 3⟩, 5, 100⟩, stream := [] }).1 :=
  shuffleRead_boundary_preservation.1 _

/-- C2: `readColumnWithDecimalData` selects the 32-bit backing for precision
5, 64-bit for 10, 128-bit for 30, 256-bit for 50, and in general (for any
precision `createDecimal` accepts, i.e. up to 76) the narrowest backing
width whose maximum representable precision covers the source precision. -/
theorem decimal_width_selection :
    readColumnWithDecimalData 5 = .w32 ∧
    readColumnWithDecimalData 10 = .w64 ∧
    readColumnWithDecimalData 30 = .w128 ∧
    readColumnWithDecimalData 50 = .w256 ∧
    (∀ p : Nat, p ≤ 76 →
      p ≤ (readColumnWithDecimalData p).maxPrecision ∧
      ∀ w : DecimalWidth, p ≤ w.maxPrecision →
        (readColumnWithDecimalData p).bits ≤ w.bits) := by
  refine ⟨rfl, rfl, rfl, rfl, ?_⟩
  decide

/-- Closed instantiation of `decimal_width_selection` at precision 7. -/
theorem decimal_width_selection_witness :
    7 ≤ (readColumnWithDecimalData 7).maxPrecision ∧
    (readColumnWithDecimalData 7).bits ≤ DecimalWidth.bits .w64 :=
  ⟨(decimal_width_selection.2.2.2.2 7 (by decide)).1,
   (decimal_width_selection.2.2.2.2 7 (by decide)).2 .w64 (by decide)⟩

theorem checkDate32Chunk_ok (column_name : String) (c : List Int)
    (h : ∀ v ∈ c, v ≤ DATE_LUT_MAX_EXTEND_DAY_NUM) :
    checkDate32Chunk column_name c = .ok () := by
  induction c with
  | nil => rfl
  | cons v rest ih =>
    rw [checkDate32Chunk]
    rw [if_neg (by have := h v (List.mem_cons_self v rest); omega)]
    exact ih (fun x hx => h x (List.mem_cons_of_mem _ hx))

theorem checkDate32Chunk_error (column_name : String) (c : List Int)
    (h : ∃ v ∈ c, DATE_LUT_MAX_EXTEND_DAY_NUM < v) :
    ∃ v', DATE_LUT_MAX_EXTEND_DAY_NUM < v' ∧
      checkDate32Chunk column_name c = .error (.valueOutOfRange v' column_name) := by
  induction c with
  | nil => simp at h
  | cons v rest ih =>
    rw [checkDate32Chunk]
    by_cases hv : DATE_LUT_MAX_EXTEND_DAY_NUM < v
    · exact ⟨v, hv, by rw [if_pos hv]⟩
    · rw [if_neg hv]
      apply ih
      rcases h with ⟨w, hw, hwgt⟩
      rcases List.mem_cons.mp hw with rfl | hw'
      · exact absurd hwgt hv
      · exact ⟨w, hw', hwgt⟩

theorem readColumnWithDate32Go_ok (column_name : String) (chunks : List (List Int)) :
    ∀ acc : List Int,
      (∀ v ∈ chunks.flatten, v ≤ DATE_LUT_MAX_EXTEND_DAY_NUM) →
      readColumnWithDate32Go column_name chunks acc = .ok (acc ++ chunks.flatten) := by
  induction chunks with
  | nil => intro acc _; simp [readColumnWithDate32Go]
  | cons c cs ih =>
    intro acc h
    rw [readColumnWithDate32Go]
    have h1 : ∀ v ∈ c, v ≤ DATE_LUT_MAX_EXTEND_DAY_NUM := fun v hv =>
      h v (by rw [List.flatten_cons]; exact List.mem_append.mpr (Or.inl hv))
    have h2 : ∀ v ∈ cs.flatten, v ≤ DATE_LUT_MAX_EXTEND_DAY_NUM := fun v hv =>
      h v (by rw [List.flatten_cons]; exact List.mem_append.mpr (Or.inr hv))
    rw [checkDate32Chunk_ok column_name c h1, ih (acc ++ c) h2, List.flatten_cons,
      List.append_assoc]

theorem readColumnWithDate32Go_error (column_name : String) (chunks : List (List Int)) :
    ∀ acc : List Int,
      (∃ v ∈ chunks.flatten, DATE_LUT_MAX_EXTEND_DAY_NUM < v) →
      ∃ v', DATE_LUT_MAX_EXTEND_DAY_NUM < v' ∧
        readColumnWithDate32Go column_name chunks acc
          = .error (.valueOutOfRange v' column_name) := by
  induction chunks with
  | nil => intro acc h; simp at h
  | cons c cs ih =>
    intro acc h
    rw [readColumnWithDate32Go]
    by_cases hc : ∃ v ∈ c, DATE_LUT_MAX_EXTEND_DAY_NUM < v
    · rcases checkDate32Chunk_error column_name c hc with ⟨v', hv', heq⟩
      rw [heq]
      exact ⟨v', hv', rfl⟩
    · have hok : ∀ v ∈ c, v ≤ DATE_LUT_MAX_EXTEND_DAY_NUM := by
        intro v hv
        by_contra hcon
        exact hc ⟨v, hv, by omega⟩
      rw [checkDate32Chunk_ok column_name c hok]
      apply ih
      rcases h with ⟨w, hw, hwgt⟩
      rw [List.flatten_cons] at hw
      rcases List.mem_append.mp hw with hw' | hw'
      · exact absurd hwgt (by have := hok w hw'; omega)
      · exact ⟨w, hw', hwgt⟩

/-- C3: a `Date32` column whose day numbers are all at most
`DATE_LUT_MAX_EXTEND_DAY_NUM` converts to the exact copy of its values (so a
value equal to the maximum converts successfully and nothing is clamped);
any value strictly above the maximum makes the conversion fail with
`VALUE_IS_OUT_OF_RANGE_OF_DATA_TYPE` naming the column. -/
theorem date32_bound_check :
    (∀ (chunks : List (List Int)) (column_name : String),
      (∀ v ∈ chunks.flatten, v ≤ DATE_LUT_MAX_EXTEND_DAY_NUM) →
      readColumnWithDate32Data chunks column_name = .ok chunks.flatten) ∧
    (∀ (chunks : List (List Int)) (column_name : String),
      (∃ v ∈ chunks.flatten, DATE_LUT_MAX_EXTEND_DAY_NUM < v) →
      ∃ v', DATE_LUT_MAX_EXTEND_DAY_NUM < v' ∧
        readColumnWithDate32Data chunks column_name
          = .error (.valueOutOfRange v' column_name)) := by
  constructor
  · intro chunks column_name h
    rw [readColumnWithDate32Data, readColumnWithDate32Go_ok column_name chunks [] h]
    simp
  · intro chunks column_name h
    exact readColumnWithDate32Go_error column_name chunks [] h

/-- Closed instantiation of `date32_bound_check`: the maximum day number
converts, one past it throws naming the column. -/
theorem date32_bound_check_witness :
    readColumnWithDate32Data [[114636]] "d" = .ok [114636] ∧
    readColumnWithDate32Data [[114637]] "d"
      = .error (.valueOutOfRange 114637 "d") :=
  ⟨date32_bound_check.1 [[114636]] "d" (by decide), rfl⟩

/-- C6: the restricted index dispatch of `readColumnWithIndexesData` maps
each signed integer index type to the unsigned type of the same width and
each unsigned type to itself, succeeds exactly on the 8/16/32/64-bit
integer tags, and throws `BAD_ARGUMENTS` naming the type otherwise. -/
theorem lowcardinality_index_dispatch :
    (indexTypeDispatch .uint8 = .ok .uint8 ∧ indexTypeDispatch .int8 = .ok .uint8 ∧
     indexTypeDispatch .uint16 = .ok .uint16 ∧ indexTypeDispatch .int16 = .ok .uint16 ∧
     indexTypeDispatch .uint32 = .ok .uint32 ∧ indexTypeDispatch .int32 = .ok .uint32 ∧
     indexTypeDispatch .uint64 = .ok .uint64 ∧ indexTypeDispatch .int64 = .ok .uint64) ∧
    (∀ t : ArrowTypeId,
      t ∉ [ArrowTypeId.uint8, .int8, .uint16, .int16, .uint32, .int32, .uint64, .int64] →
      indexTypeDispatch t = .error (.badArguments t.tagName)) ∧
    (∀ t : ArrowTypeId,
      (∃ w, indexTypeDispatch t = .ok w) ↔
      t ∈ [ArrowTypeId.uint8, .int8, .uint16, .int16, .uint32, .int32, .uint64, .int64]) := by
  refine ⟨⟨rfl, rfl, rfl, rfl, rfl, rfl, rfl, rfl⟩, ?_, ?_⟩
  · intro t ht
    cases t <;> first
      | rfl
      | exact absurd (by simp) ht
  · intro t
    cases t <;> simp [indexTypeDispatch]

/-- Closed instantiation of `lowcardinality_index_dispatch` at an
unsupported index type. -/
theorem lowcardinality_index_dispatch_witness :
    indexTypeDispatch .timestamp = .error (.badArguments "timestamp") :=
  lowcardinality_index_dispatch.2.1 .timestamp (by decide)

theorem offsets_append_chunk (acc : List Int) (c : ArrowListChunk)
    (hchain : acc.Chain' (· ≤ ·)) (hvalid : validListChunk c) :
    (acc ++ (c.offsets.drop 1).map (fun o => acc.getLastD 0 + o)).Chain' (· ≤ ·) ∧
    (acc ++ (c.offsets.drop 1).map (fun o => acc.getLastD 0 + o)).getLastD 0
      = acc.getLastD 0 + (c.numValues : Int) := by
  obtain ⟨hhead, hch, hlast⟩ := hvalid
  match hoff : c.offsets with
  | [] => rw [hoff] at hhead; simp at hhead
  | [o0] =>
    rw [hoff] at hhead hlast
    have ho0 : o0 = 0 := by simpa using hhead
    have hn : (c.numValues : Int) = 0 := by
      have h1 : o0 = (c.numValues : Int) := by simpa using hlast
      omega
    simpa [hn] using hchain
  | o0 :: o1 :: os =>
    rw [hoff] at hhead hch hlast
    have ho0 : o0 = 0 := by simpa using hhead
    have hch' : List.Chain' (· ≤ ·) (o1 :: os) := hch.tail
    have ho1 : (0 : Int) ≤ o1 := by
      have := (List.chain'_cons.mp hch).1
      omega
    have hlast' : (o1 :: os).getLast? = some (c.numValues : Int) := by
      rwa [List.getLast?_cons_cons] at hlast
    constructor
    · apply List.Chain'.append hchain
      · rw [List.chain'_map]
        exact hch'.imp (fun a b hab => by omega)
      · intro x hx y hy
        simp only [List.drop_succ_cons, List.drop_zero, List.map_cons,
          List.head?_cons, Option.mem_def, Option.some.injEq] at hy
        have hxval : x = acc.getLastD 0 := by
          rw [List.getLastD_eq_getLast?, hx]
          rfl
        omega
    · rw [List.getLastD_eq_getLast?, List.getLast?_append_of_ne_nil _ (by simp),
        List.getLast?_map]
      simp only [List.drop_succ_cons, List.drop_zero]
      rw [hlast']
      rfl

theorem readOffsets_fold (chunks : List ArrowListChunk) :
    ∀ acc : List Int, acc.Chain' (· ≤ ·) →
      (∀ c ∈ chunks, validListChunk c) →
      (chunks.foldl
          (fun acc c => acc ++ (c.offsets.drop 1).map (fun o => acc.getLastD 0 + o))
          acc).Chain' (· ≤ ·) ∧
      (chunks.foldl
          (fun acc c => acc ++ (c.offsets.drop 1).map (fun o => acc.getLastD 0 + o))
          acc).getLastD 0
        = acc.getLastD 0 + elementColumnLength chunks := by
  induction chunks with
  | nil =>
    intro acc hch _
    simpa [elementColumnLength] using hch
  | cons c cs ih =>
    intro acc hch hv
    rw [List.foldl_cons]
    obtain ⟨h1, h2⟩ := offsets_append_chunk acc c hch (hv c (List.mem_cons_self c cs))
    obtain ⟨h3, h4⟩ := ih _ h1 (fun x hx => hv x (List.mem_cons_of_mem c hx))
    refine ⟨h3, ?_⟩
    rw [h4, h2]
    simp [elementColumnLength]
    ring

/-- C8: for every list/map conversion over valid arrow chunks, the produced
offsets array is monotonically non-decreasing (the per-chunk running start
accumulates) and its final value equals the length of the produced element
column. -/
theorem offsets_monotone (chunks : List ArrowListChunk)
    (h : ∀ c ∈ chunks, validListChunk c) :
    (readOffsetsFromArrowListColumn chunks).Chain' (· ≤ ·) ∧
    (readOffsetsFromArrowListColumn chunks).getLastD 0 = elementColumnLength chunks := by
  have hr := readOffsets_fold chunks [] (by simp) h
  simpa [readOffsetsFromArrowListColumn] using hr

/-- C5: converting two dictionary-encoded columns that reference the same
column name within one session materializes the dictionary exactly once:
the first conversion allocates it (one identity drawn from the counter), the
second returns the identical allocation and leaves the state untouched, and
each encounter converts its own index arrays afresh. -/
theorem dictionary_single_materialization
    (st0 : DictState) (column_name : String) (col1 col2 : DictColumn)
    (out1 out2 : LowCardinalityColumn) (st1 st2 : DictState)
    (h0 : st0.dictionary_values.lookup column_name = none)
    (h1 : readDictionaryColumn column_name col1 st0 = .ok (out1, st1))
    (h2 : readDictionaryColumn column_name col2 st1 = .ok (out2, st2)) :
    out2.dictionary = out1.dictionary ∧
    out1.dictionary
      = ⟨st0.nextIdent, uniqueInsertAll ((col1.chunks.map DictChunk.dictionary).flatten)⟩ ∧
    st1.nextIdent = st0.nextIdent + 1 ∧
    st2 = st1 ∧
    readColumnWithIndexesData col1.indexType ((col1.chunks.map DictChunk.indices).flatten)
      = .ok (out1.indexType, out1.indices) ∧
    readColumnWithIndexesData col2.indexType ((col2.chunks.map DictChunk.indices).flatten)
      = .ok (out2.indexType, out2.indices) := by
  simp only [readDictionaryColumn, h0] at h1
  cases hq1 : readColumnWithIndexesData col1.indexType
      ((col1.chunks.map DictChunk.indices).flatten) with
  | error e =>
    rw [hq1] at h1
    simp at h1
  | ok v1 =>
    obtain ⟨t1, idxs1⟩ := v1
    rw [hq1] at h1
    simp only [Except.ok.injEq, Prod.mk.injEq] at h1
    obtain ⟨hout1, hst1⟩ := h1
    subst hout1
    subst hst1
    simp only [readDictionaryColumn, List.lookup] at h2
    simp only [beq_self_eq_true, if_true] at h2
    cases hq2 : readColumnWithIndexesData col2.indexType
        ((col2.chunks.map DictChunk.indices).flatten) with
    | error e =>
      rw [hq2] at h2
      simp at h2
    | ok v2 =>
      obtain ⟨t2, idxs2⟩ := v2
      rw [hq2] at h2
      simp only [Except.ok.injEq, Prod.mk.injEq] at h2
      obtain ⟨hout2, hst2⟩ := h2
      subst hout2
      subst hst2
      exact ⟨rfl, rfl, rfl, rfl, rfl, rfl⟩

/-- Closed instantiation of `dictionary_single_materialization`: two
single-chunk columns sharing the name "q" and dictionary `["a", "b"]`. -/
theorem dictionary_single_materialization_witness :
    LowCardinalityColumn.dictionary ⟨⟨0, ["a", "b"]⟩, .uint8, [1, 0]⟩
      = LowCardinalityColumn.dictionary ⟨⟨0, ["a", "b"]⟩, .uint8, [0, 1]⟩ ∧
    LowCardinalityColumn.dictionary ⟨⟨0, ["a", "b"]⟩, .uint8, [0, 1]⟩
      = ⟨DictState.nextIdent ⟨0, []⟩,
         uniqueInsertAll
           ((List.map DictChunk.dictionary
              (DictColumn.chunks ⟨.uint8, [⟨["a", "b"], [0, 1]⟩]⟩)).flatten)⟩ ∧
    DictState.nextIdent ⟨1, [("q", ⟨0, ["a", "b"]⟩)]⟩ = DictState.nextIdent ⟨0, []⟩ + 1 ∧
    (⟨1, [("q", ⟨0, ["a", "b"]⟩)]⟩ : DictState) = ⟨1, [("q", ⟨0, ["a", "b"]⟩)]⟩ ∧
    readColumnWithIndexesData (DictColumn.indexType ⟨.uint8, [⟨["a", "b"], [0, 1]⟩]⟩)
        ((List.map DictChunk.indices
           (DictColumn.chunks ⟨.uint8, [⟨["a", "b"], [0, 1]⟩]⟩)).flatten)
      = .ok (LowCardinalityColumn.indexType ⟨⟨0, ["a", "b"]⟩, .uint8, [0, 1]⟩,
             LowCardinalityColumn.indices ⟨⟨0, ["a", "b"]⟩, .uint8, [0, 1]⟩) ∧
    readColumnWithIndexesData (DictColumn.indexType ⟨.uint8, [⟨["a", "b"], [1, 0]⟩]⟩)
        ((List.map DictChunk.indices
           (DictColumn.chunks ⟨.uint8, [⟨["a", "b"], [1, 0]⟩]⟩)).flatten)
      = .ok (LowCardinalityColumn.indexType ⟨⟨0, ["a", "b"]⟩, .uint8, [1, 0]⟩,
             LowCardinalityColumn.indices ⟨⟨0, ["a", "b"]⟩, .uint8, [1, 0]⟩) :=
  dictionary_single_materialization ⟨0, []⟩ "q"
    ⟨.uint8, [⟨["a", "b"], [0, 1]⟩]⟩ ⟨.uint8, [⟨["a", "b"], [1, 0]⟩]⟩
    ⟨⟨0, ["a", "b"]⟩, .uint8, [0, 1]⟩ ⟨⟨0, ["a", "b"]⟩, .uint8, [1, 0]⟩
    ⟨1, [("q", ⟨0, ["a", "b"]⟩)]⟩ ⟨1, [("q", ⟨0, ["a", "b"]⟩)]⟩
    rfl rfl rfl

theorem resolveColumn_unmatched (import_nested allow_missing_columns : Bool)
    (inputs : List (String × InputColumn)) (num_rows : Nat) (hc : HeaderColumn)
    (h : inputMatches import_nested inputs hc = false) :
    resolveColumn import_nested allow_missing_columns inputs num_rows hc
      = if allow_missing_columns then
          .ok (cloneResized ⟨hc.type, hc.sampleValues⟩ num_rows)
        else .error (.thereIsNoColumn hc.name) := by
  unfold inputMatches at h
  rw [Bool.or_eq_false_iff] at h
  obtain ⟨h1, h2⟩ := h
  have h1' : inputs.lookup hc.name = none := by
    cases hl : inputs.lookup hc.name with
    | none => rfl
    | some v => rw [hl] at h1; simp at h1
  have hnested :
      (if import_nested then
        match inputs.lookup (extractTableName hc.name) with
        | some g => g.leaves.lookup hc.name
        | none => none
      else none : Option CHColumn) = none := by
    cases himp : import_nested with
    | false => simp
    | true =>
      rw [himp] at h2
      simp only [Bool.true_and] at h2
      simp only [if_true]
      cases hl2 : inputs.lookup (extractTableName hc.name) with
      | none => rfl
      | some g =>
        rw [hl2] at h2
        have h2' : (g.leaves.lookup hc.name).isSome = false := h2
        show g.leaves.lookup hc.name = none
        cases hl3 : g.leaves.lookup hc.name with
        | none => rfl
        | some c => rw [hl3] at h2'; simp at h2'
  rw [resolveColumn, h1', hnested]
  cases allow_missing_columns <;> simp

theorem convertColumns_all_ok (import_nested allow_missing_columns : Bool)
    (inputs : List (String × InputColumn)) (num_rows : Nat) :
    ∀ header : List HeaderColumn,
      (∀ hc ∈ header, ∃ c,
        resolveColumn import_nested allow_missing_columns inputs num_rows hc = .ok c) →
      ∃ cols, convertColumns import_nested allow_missing_columns inputs num_rows header
        = .ok cols := by
  intro header
  induction header with
  | nil => intro _; exact ⟨[], rfl⟩
  | cons hc rest ih =>
    intro h
    obtain ⟨c, hc1⟩ := h hc (List.mem_cons_self hc rest)
    obtain ⟨cols, hc2⟩ := ih (fun x hx => h x (List.mem_cons_of_mem _ hx))
    exact ⟨c :: cols, by simp only [convertColumns, hc1, hc2]⟩

theorem convertColumns_strict_missing (import_nested : Bool)
    (inputs : List (String × InputColumn)) (num_rows : Nat) :
    ∀ header : List HeaderColumn,
      (∃ hc ∈ header, inputMatches import_nested inputs hc = false) →
      (∀ hc ∈ header, inputMatches import_nested inputs hc = true →
        ∃ c, resolveColumn import_nested false inputs num_rows hc = .ok c) →
      ∃ hc ∈ header, inputMatches import_nested inputs hc = false ∧
        convertColumns import_nested false inputs num_rows header
          = .error (.thereIsNoColumn hc.name) := by
  intro header
  induction header with
  | nil =>
    rintro ⟨hc, hmem, _⟩ _
    exact absurd hmem (List.not_mem_nil hc)
  | cons hc rest ih =>
    intro hex hall
    by_cases hm : inputMatches import_nested inputs hc = true
    · obtain ⟨c, hcok⟩ := hall hc (List.mem_cons_self hc rest) hm
      have hex' : ∃ x ∈ rest, inputMatches import_nested inputs x = false := by
        rcases hex with ⟨x, hx, hxf⟩
        rcases List.mem_cons.mp hx with rfl | hx'
        · rw [hm] at hxf; cases hxf
        · exact ⟨x, hx', hxf⟩
      obtain ⟨x, hx, hxf, hrest⟩ :=
        ih hex' (fun y hy hym => hall y (List.mem_cons_of_mem _ hy) hym)
      exact ⟨x, List.mem_cons_of_mem _ hx, hxf,
        by simp only [convertColumns, hcok, hrest]⟩
    · have hmf : inputMatches import_nested inputs hc = false :=
        Bool.not_eq_true _ ▸ (by simpa using hm)
      have herr := resolveColumn_unmatched import_nested false inputs num_rows hc hmf
      rw [if_neg (by simp)] at herr
      exact ⟨hc, List.mem_cons_self hc rest, hmf,
        by simp only [convertColumns, herr]⟩

/-- C7: a target header column matched neither by exact name nor through the
nested-table route is, under the strict policy, a `THERE_IS_NO_COLUMN` error
naming the column — both for its own resolution step and for the whole
`arrowColumnsToCHChunk` call — and, under the lenient policy, a synthesized
column of the header's declared type default-filled to the batch's row
count, with the whole call succeeding. -/
theorem missing_column_policy :
    (∀ (import_nested : Bool) (inputs : List (String × InputColumn))
        (num_rows : Nat) (hc : HeaderColumn),
      inputMatches import_nested inputs hc = false →
      resolveColumn import_nested false inputs num_rows hc
        = .error (.thereIsNoColumn hc.name)) ∧
    (∀ (import_nested : Bool) (inputs : List (String × InputColumn))
        (num_rows : Nat) (hc : HeaderColumn),
      inputMatches import_nested inputs hc = false →
      resolveColumn import_nested true inputs num_rows hc
        = .ok (cloneResized ⟨hc.type, hc.sampleValues⟩ num_rows)) ∧
    (∀ (c : CHColumn) (n : Nat),
      (cloneResized c n).type = c.type ∧ (cloneResized c n).values.length = n) ∧
    (∀ (import_nested : Bool) (header : List HeaderColumn) (nm : String)
        (ic0 : InputColumn) (rest : List (String × InputColumn)),
      (∃ hc ∈ header, inputMatches import_nested ((nm, ic0) :: rest) hc = false) →
      (∀ hc ∈ header, inputMatches import_nested ((nm, ic0) :: rest) hc = true →
        ∃ c, resolveColumn import_nested false ((nm, ic0) :: rest) ic0.len hc = .ok c) →
      ∃ hc ∈ header, inputMatches import_nested ((nm, ic0) :: rest) hc = false ∧
        arrowColumnsToCHChunk import_nested false header ((nm, ic0) :: rest)
          = .error (.thereIsNoColumn hc.name)) ∧
    (∀ (import_nested : Bool) (header : List HeaderColumn) (nm : String)
        (ic0 : InputColumn) (rest : List (String × InputColumn)),
      (∀ hc ∈ header, inputMatches import_nested ((nm, ic0) :: rest) hc = true →
        ∃ c, resolveColumn import_nested true ((nm, ic0) :: rest) ic0.len hc = .ok c) →
      ∃ cols, arrowColumnsToCHChunk import_nested true header ((nm, ic0) :: rest)
        = .ok ⟨cols, ic0.len⟩) := by
  refine ⟨?_, ?_, ?_, ?_, ?_⟩
  · intro import_nested inputs num_rows hc h
    have := resolveColumn_unmatched import_nested false inputs num_rows hc h
    rwa [if_neg (by simp)] at this
  · intro import_nested inputs num_rows hc h
    have := resolveColumn_unmatched import_nested true inputs num_rows hc h
    rwa [if_pos rfl] at this
  · intro c n
    refine ⟨rfl, ?_⟩
    simp [cloneResized]
    omega
  · intro import_nested header nm ic0 rest hex hall
    obtain ⟨hc, hmem, hmf, herr⟩ :=
      convertColumns_strict_missing import_nested ((nm, ic0) :: rest) ic0.len
        header hex hall
    exact ⟨hc, hmem, hmf, by simp only [arrowColumnsToCHChunk, herr]⟩
  · intro import_nested header nm ic0 rest hall
    have hres : ∀ hc ∈ header, ∃ c,
        resolveColumn import_nested true ((nm, ic0) :: rest) ic0.len hc = .ok c := by
      intro hc hmem
      by_cases hm : inputMatches import_nested ((nm, ic0) :: rest) hc = true
      · exact hall hc hmem hm
      · have hmf : inputMatches import_nested ((nm, ic0) :: rest) hc = false := by
          simpa using hm
        have := resolveColumn_unmatched import_nested true ((nm, ic0) :: rest)
          ic0.len hc hmf
        rw [if_pos rfl] at this
        exact ⟨_, this⟩
    obtain ⟨cols, hcols⟩ :=
      convertColumns_all_ok import_nested true ((nm, ic0) :: rest) ic0.len header hres
    exact ⟨cols, by simp only [arrowColumnsToCHChunk, hcols]⟩

/-- Closed instantiation of `missing_column_policy`: one header column
`"x"` absent from a one-column input named `"y"` and three rows. -/
theorem missing_column_policy_witness :
    resolveColumn false false [("y", ⟨3, ⟨"Int64", [1, 2, 3]⟩, []⟩)] 3
        ⟨"x", "Int64", []⟩
      = .error (.thereIsNoColumn "x") ∧
    resolveColumn false true [("y", ⟨3, ⟨"Int64", [1, 2, 3]⟩, []⟩)] 3
        ⟨"x", "Int64", []⟩
      = .ok (cloneResized ⟨"Int64", []⟩ 3) ∧
    (cloneResized ⟨"Int64", []⟩ 3).values.length = 3 :=
  ⟨missing_column_policy.1 false [("y", ⟨3, ⟨"Int64", [1, 2, 3]⟩, []⟩)] 3
      ⟨"x", "Int64", []⟩ rfl,
   missing_column_policy.2.1 false [("y", ⟨3, ⟨"Int64", [1, 2, 3]⟩, []⟩)] 3
      ⟨"x", "Int64", []⟩ rfl,
   (missing_column_policy.2.2.1 ⟨"Int64", []⟩ 3).2⟩

/-- C9 counterexample: calling the table-to-batch conversion
(`arrowTableToCHChunk`) with a table of zero columns does NOT throw: because
of the guard `if (!name_to_column_ptr.empty())`, the call silently succeeds
and leaves the output chunk unmodified, even when the header demands a
column. -/
theorem empty_table_silently_skipped :
    arrowTableToCHChunk false false [⟨"x", "Int64", []⟩] [] ⟨[], 7⟩ = .ok ⟨[], 7⟩ :=
  rfl

/-- C9 (amended): the columns-level conversion `arrowColumnsToCHChunk`
throws `INCORRECT_NUMBER_OF_COLUMNS` ("Columns is empty") on zero external
columns, but the table-level wrapper `arrowTableToCHChunk` guards the call
and, on a zero-column table, returns with the output chunk untouched
instead of failing. -/
theorem empty_input_error :
    (∀ (import_nested allow_missing_columns : Bool) (header : List HeaderColumn),
      arrowColumnsToCHChunk import_nested allow_missing_columns header []
        = .error .incorrectNumberOfColumns) ∧
    (∀ (import_nested allow_missing_columns : Bool) (header : List HeaderColumn)
        (res : CHChunk),
      arrowTableToCHChunk import_nested allow_missing_columns header [] res
        = .ok res) :=
  ⟨fun _ _ _ => rfl, fun _ _ _ _ => rfl⟩

theorem getMissingColumnsGo_lenient (import_nested : Bool) (schema : List SchemaField) :
    ∀ (header : List HeaderColumn) (i : Nat),
      getMissingColumnsGo import_nested true schema i header
        = .ok (missingIndicesSpec import_nested schema i header) := by
  intro header
  induction header with
  | nil => intro i; rfl
  | cons hc rest ih =>
    intro i
    rw [getMissingColumnsGo, missingIndicesSpec]
    by_cases hcont : ((schema.map SchemaField.name).contains hc.name) = true
    · rw [if_pos hcont]
      have hm : schemaMatches import_nested schema hc = true := by
        unfold schemaMatches
        rw [hcont, Bool.true_or]
      rw [if_pos hm, ih]
    · rw [if_neg hcont]
      by_cases hn : (import_nested &&
          match schema.find? (fun f => f.name == extractTableName hc.name) with
          | some f => f.leaves.contains hc.name
          | none => false : Bool) = true
      · rw [if_pos hn]
        have hm : schemaMatches import_nested schema hc = true := by
          unfold schemaMatches
          rw [hn, Bool.or_true]
        rw [if_pos hm, ih]
      · rw [if_neg hn]
        have hm : schemaMatches import_nested schema hc = false := by
          unfold schemaMatches
          rw [Bool.or_eq_false_iff]
          exact ⟨by simpa using hcont, by simpa using hn⟩
        rw [if_neg (by decide), ih,
          if_neg (show ¬(schemaMatches import_nested schema hc = true) by
            rw [hm]; decide)]

theorem getMissingColumnsGo_strict (import_nested : Bool) (schema : List SchemaField) :
    ∀ (header : List HeaderColumn) (i : Nat) (hc0 : HeaderColumn),
      firstUnmatched import_nested schema header = some hc0 →
      getMissingColumnsGo import_nested false schema i header
        = .error (.thereIsNoColumn hc0.name) := by
  intro header
  induction header with
  | nil => intro i hc0 h; simp [firstUnmatched] at h
  | cons hc rest ih =>
    intro i hc0 h
    rw [firstUnmatched, List.find?_cons] at h
    rw [getMissingColumnsGo]
    by_cases hm : schemaMatches import_nested schema hc = true
    · rw [hm] at h
      simp only [Bool.not_true] at h
      have h' : firstUnmatched import_nested schema rest = some hc0 := h
      unfold schemaMatches at hm
      rcases Bool.or_eq_true_iff.mp hm with hcont | hn
      · rw [if_pos hcont]
        exact ih (i + 1) hc0 h'
      · by_cases hcont : ((schema.map SchemaField.name).contains hc.name) = true
        · rw [if_pos hcont]
          exact ih (i + 1) hc0 h'
        · rw [if_neg hcont, if_pos hn]
          exact ih (i + 1) hc0 h'
    · have hmf : schemaMatches import_nested schema hc = false := by simpa using hm
      rw [hmf] at h
      simp only [Bool.not_false] at h
      have hceq : hc = hc0 := by
        simpa using h
      subst hceq
      have hsplit := Bool.or_eq_false_iff.mp hmf
      simp only [hsplit.1, hsplit.2]
      rw [if_neg (by decide), if_neg (by decide), if_pos (by decide)]

/-- C10: under the strict policy `getMissingColumns` throws
`THERE_IS_NO_COLUMN` naming the first header column that has neither an
exact nor a nested match in the schema-derived header, instead of reporting
it; only under the lenient policy does it return the indices of the
unmatched header columns. -/
theorem getMissingColumns_policy :
    (∀ (import_nested : Bool) (header : List HeaderColumn)
        (schema : List SchemaField) (hc0 : HeaderColumn),
      firstUnmatched import_nested schema header = some hc0 →
      getMissingColumns import_nested false header schema
        = .error (.thereIsNoColumn hc0.name)) ∧
    (∀ (import_nested : Bool) (header : List HeaderColumn)
        (schema : List SchemaField),
      getMissingColumns import_nested true header schema
        = .ok (missingIndicesSpec import_nested schema 0 header)) := by
  constructor
  · intro import_nested header schema hc0 h
    exact getMissingColumnsGo_strict import_nested schema header 0 hc0 h
  · intro import_nested header schema
    exact getMissingColumnsGo_lenient import_nested schema header 0

/-- Closed instantiation of `getMissingColumns_policy`: a two-column header
whose column "b" is absent from a one-field schema. -/
theorem getMissingColumns_policy_witness :
    getMissingColumns false false [⟨"a", "T", []⟩, ⟨"b", "T", []⟩] [⟨"a", []⟩]
      = .error (.thereIsNoColumn "b") ∧
    getMissingColumns false true [⟨"a", "T", []⟩, ⟨"b", "T", []⟩] [⟨"a", []⟩]
      = .ok [1] :=
  ⟨getMissingColumns_policy.1 false [⟨"a", "T", []⟩, ⟨"b", "T", []⟩] [⟨"a", []⟩]
      ⟨"b", "T", []⟩ rfl,
   getMissingColumns_policy.2 false [⟨"a", "T", []⟩, ⟨"b", "T", []⟩] [⟨"a", []⟩]⟩

/-- Closed instantiation of `offsets_monotone`: two chunks of 3 and 1
elements produce the offsets `[2, 3, 4]` ending at element count 4. -/
theorem offsets_monotone_witness :
    (readOffsetsFromArrowListColumn [⟨[0, 2, 3], 3⟩, ⟨[0, 1], 1⟩]).Chain' (· ≤ ·) ∧
    (readOffsetsFromArrowListColumn [⟨[0, 2, 3], 3⟩, ⟨[0, 1], 1⟩]).getLastD 0
      = elementColumnLength [⟨[0, 2, 3], 3⟩, ⟨[0, 1], 1⟩] :=
  offsets_monotone _ (by
    intro c hc
    simp only [List.mem_cons, List.not_mem_nil, or_false] at hc
    rcases hc with rfl | rfl
    · exact ⟨rfl, by norm_num [List.chain'_cons], rfl⟩
    · exact ⟨rfl, by norm_num [List.chain'_cons], rfl⟩)

end Gluten
